import Mathlib

/-!
Verification of the Python OSC wrapper (package `osc`, file `osc/__init__.py`)
against its natural-language specification.

The development has two parts.

Part 1 embeds the repository code itself: the module-level registry function
named with a double underscore (a function whose mutable default argument
stores a dict mapping endpoints to dicts of address-to-callback bindings),
the `send` and `receive` decorator factories, `start_servers`, and `wait`.
Python dicts are embedded as insertion-ordered association lists whose update
operation replaces the value at an existing key in place and appends new keys
at the end, exactly like `dict.update`. Python function objects are embedded
as a pair of an identity tag and a calling behaviour, so that statements about
which object is stored (the original function versus the wrapper closure) are
expressible. Side effects (creating servers, starting threads, sending UDP
datagrams) are embedded as explicit event traces.

Part 2 models the OSC codec. The repository delegates encoding and decoding
entirely to the external `pythonosc` library, so the codec is not in the
source tree; it is modelled from the specification text (section 4.1) and the
round-trip law is proved against that model. Bytes are natural numbers below
256; IEEE-754 Float32 values are carried as their 32-bit big-endian bit
pattern, which is what the wire format stores.
-/

namespace Osc

/-! ### Part 1: the repository code -/

/-- A server endpoint: the `tuple[str, int]` key of the registry dict. -/
abbrev Endpoint := String × Nat

/-- The inner dict of one endpoint: an insertion-ordered mapping from OSC
address to the registered callback. -/
abbrev Bindings (κ : Type) := List (String × κ)

/-- The registry dict stored in the mutable default argument: an
insertion-ordered mapping from each endpoint to the bindings of that endpoint. -/
abbrev Registry (κ : Type) := List (Endpoint × Bindings κ)

/-- Whether the registry dict already has the given endpoint key. -/
def hasKey (r : Registry κ) (k : Endpoint) : Bool :=
  r.any (fun e => e.1 == k)

/-- One step of `dict.update` with a single-entry dict `{k: v}`: if `k` is
present its value is replaced in place (the key keeps its position), otherwise
the pair is appended at the end. This is exactly the CPython dict semantics
used by the registry. -/
def dictSet (r : Registry κ) (k : Endpoint) (v : Bindings κ) : Registry κ :=
  if hasKey r k then r.map (fun e => if e.1 = k then (k, v) else e)
  else r ++ [(k, v)]

/-- Python `dict.update(u)` for a multi-entry update: entries are applied in
iteration order. -/
def dictUpdate (r : Registry κ) (u : Registry κ) : Registry κ :=
  u.foldl (fun s e => dictSet s e.1 e.2) r

/-- Dict lookup: the value stored at key `k`, if present. -/
def regLookup (r : Registry κ) (k : Endpoint) : Option (Bindings κ) :=
  (r.find? (fun e => e.1 == k)).map Prod.snd

/-- One call to the registry function (source lines 42 to 65): either a read
(no `update` argument) or a write passing an update dict. -/
inductive RegCall (κ : Type) where
  | read
  | write (u : Registry κ)
deriving DecidableEq

/-- The state of the mutable default argument after one registry call: a read
leaves it unchanged, a write applies `dict.update`. -/
def serversStep (s : Registry κ) : RegCall κ → Registry κ
  | .read => s
  | .write u => dictUpdate s u

/-- The value returned by one registry call: the (possibly updated) stored
dict itself. -/
def serversReturn (s : Registry κ) (c : RegCall κ) : Registry κ :=
  serversStep s c

/-- The state of the registry after a sequence of calls, threaded through the
process lifetime. -/
def runCalls (s : Registry κ) : List (RegCall κ) → Registry κ
  | [] => s
  | c :: cs => runCalls (serversStep s c) cs

/-- The registry effect of applying the decorator returned by
`receive(host, port, address, addresses)` to a callback `f` (source lines 163
to 176): the address list is the optional single `address` followed by the
optional `addresses`, and for each address the registry is updated with the
single-entry dict mapping the endpoint to the one-binding inner dict. -/
def receiveUpdate (host : String) (port : Nat) (address : Option String)
    (addresses : Option (List String)) (f : κ) (reg : Registry κ) : Registry κ :=
  let addrs := (match address with | some a => [a] | none => []) ++
    (match addresses with | some l => l | none => [])
  addrs.foldl (fun r a => dictSet r (host, port) [(a, f)]) reg

/-- The Python `Message` type alias from the source: `Optional[int | float |
bytes | str | bool | tuple | list]`. Floats are carried by their IEEE-754
bit pattern; nothing in the wrapper inspects message values. -/
inductive PyMessage where
  | none
  | int (i : Int)
  | float (bits : Nat)
  | bytes (b : List Nat)
  | str (s : String)
  | bool (b : Bool)
  | tuple (items : List PyMessage)
  | list (items : List PyMessage)

/-- The ways a receive-path callable can be invoked: with only an address, or
with an address and a message (the wrapper declares `message` with default
`None`). -/
inductive CallArgs where
  | one (addr : String)
  | two (addr : String) (message : PyMessage)

/-- A Python function object on the receive path: an object identity tag and
a calling behaviour. `call` returning `Option.none` models a raised
`TypeError` (for instance an arity mismatch). Identity tags let the embedding
distinguish the original function object from the wrapper closure, which
Python keeps distinct even when their behaviour would agree. -/
structure PyFunc (ρ : Type) where
  id : Nat
  call : CallArgs → Option ρ

/-- Applying the decorator produced by `receive` to a function object `f`
(source lines 158 to 178): the registry stores `f` itself under every given
address, and the decorator returns the freshly created wrapper closure, a new
object (identity `wid`) whose body calls `f` with the address and the message,
the message defaulting to `None` when the wrapper is called with one
argument. -/
def receiveDecorate (host : String) (port : Nat) (address : Option String)
    (addresses : Option (List String)) (f : PyFunc ρ) (wid : Nat)
    (reg : Registry (PyFunc ρ)) : Registry (PyFunc ρ) × PyFunc ρ :=
  (receiveUpdate host port address addresses f reg,
   ⟨wid, fun args =>
      match args with
      | .one addr => f.call (.two addr PyMessage.none)
      | .two addr m => f.call (.two addr m)⟩)

/-- The `receive` factory itself (source lines 113 to 180): with both
`address` and `addresses` equal to `None` it raises `ValueError` before any
decorator is produced; otherwise it returns the decorator. -/
def receive (ρ : Type) (host : String) (port : Nat) (address : Option String)
    (addresses : Option (List String)) :
    Except String (PyFunc ρ → Nat → Registry (PyFunc ρ) → Registry (PyFunc ρ) × PyFunc ρ) :=
  if address = Option.none ∧ addresses = Option.none then
    .error "ValueError: Must specify an address."
  else
    .ok (fun f wid reg => receiveDecorate host port address addresses f wid reg)

/-- A UDP datagram handed to the transport by the send wrapper: destination
host and port, then the OSC address and message of the packet. -/
structure Datagram where
  host : String
  port : Nat
  address : String
  message : PyMessage

/-- The observable outcome of one invocation of a send wrapper: the list of
datagram transmissions attempted, in order, and either the value returned to
the caller or a propagated transport exception. -/
structure SendTrace where
  attempts : List Datagram
  ret : Except Unit (String × PyMessage)

/-- One invocation of the wrapper produced by `send(host, port)` applied to
`f` (source lines 98 to 108): the packet is `f` applied to the arguments, a
`SimpleUDPClient` for `(host, port)` is created and `send_message` is called
once with the packet; on transport success the packet is returned, on
transport failure the exception propagates. `net` is the transport oracle
deciding whether that one transmission succeeds. There is no loop and no
handler around the call, so the attempt list of the translation has exactly
the one call the source makes. -/
def sendWrapper {α : Type} (host : String) (port : Nat)
    (f : α → String × PyMessage) (net : Datagram → Except Unit Unit)
    (a : α) : SendTrace :=
  match net ⟨host, port, (f a).1, (f a).2⟩ with
  | .ok _ => ⟨[⟨host, port, (f a).1, (f a).2⟩], .ok (f a)⟩
  | .error e => ⟨[⟨host, port, (f a).1, (f a).2⟩], .error e⟩

/-- One observable effect of `start_servers` (source lines 192 to 199): for
an endpoint, creating the server with its dispatcher mapping, or starting its
receive thread. -/
inductive SrvEvent (κ : Type) where
  | createServer (ep : Endpoint) (dispatcherMap : Bindings κ)
  | startThread (ep : Endpoint)

/-- The event trace of the loop in `start_servers`: for each registry entry in
order, one `Dispatcher` is created and `d.map` is called for each binding of
that endpoint in order (giving the dispatcher mapping), one
`ThreadingOSCUDPServer` is created on the endpoint with that dispatcher, and
one daemon thread running `serve_forever` is started. -/
def startServersTrace (reg : Registry κ) : List (SrvEvent κ) :=
  reg.flatMap (fun e => [.createServer e.1 e.2, .startThread e.1])

/-- The dispatcher mappings of the servers created for endpoint `k` in a
trace, in creation order. -/
def createsFor (tr : List (SrvEvent κ)) (k : Endpoint) : List (Bindings κ) :=
  tr.filterMap (fun ev =>
    match ev with
    | .createServer ep d => if ep = k then some d else none
    | .startThread _ => none)

/-- The number of receive threads started for endpoint `k` in a trace. -/
def threadsFor (tr : List (SrvEvent κ)) (k : Endpoint) : Nat :=
  (tr.filterMap (fun ev =>
    match ev with
    | .createServer _ _ => none
    | .startThread ep => if ep = k then some Unit.unit else none)).length

/-- The `wait` loop (source lines 205 to 214), step-indexed: iteration `j` of
the infinite `while 1: time.sleep(1e6)` loop either is interrupted by a
`KeyboardInterrupt` (`interrupt j = true`), which the surrounding handler
catches so that `wait` returns normally (`some ()`), or sleeps and loops.
`none` means the loop is still running after `fuel` iterations: within that
bound, `wait` has not returned. -/
def waitFrom (interrupt : Nat → Bool) (j : Nat) : Nat → Option Unit
  | 0 => Option.none
  | fuel + 1 => if interrupt j then some () else waitFrom interrupt (j + 1) fuel

/-- The `wait` call observed for `fuel` iterations. -/
def waitRun (interrupt : Nat → Bool) (fuel : Nat) : Option Unit :=
  waitFrom interrupt 0 fuel

/-- `start_servers` (source lines 183 to 202): reading the registry, running
the startup loop, then calling `wait` when `blocking` is true. The result is
`some trace` when the call returns to its caller (with the trace of startup
events), and `none` when it is still inside the blocking wait after `fuel`
iterations. -/
def startServersRun (blocking : Bool) (reg : Registry κ)
    (interrupt : Nat → Bool) (fuel : Nat) : Option (List (SrvEvent κ)) :=
  if blocking then (waitRun interrupt fuel).map (fun _ => startServersTrace reg)
  else some (startServersTrace reg)

/-! ### Part 2: the OSC codec, modelled from the specification

The repository contains no codec of its own (it delegates to the external
`pythonosc` library), so the definitions below are modelled from the
specification, section 4.1: the argument variants with single-character type
tags (int32 `i`, float32 `f`, string `s`, blob `b`, booleans `T` and `F`, nil
`N`), null-terminated 4-byte-aligned strings, a comma-prefixed type tag
string, big-endian fixed-width numerics, length-prefixed padded blobs, and the
`#bundle` marker check at the head of `decode`. -/

/-- A wire byte, as a natural number below 256. -/
abbrev Byte := Nat

/-- Codec failure, per the error taxonomy of the specification. -/
inductive OscError where
  | encodeError
  | decodeError
deriving DecidableEq

/-- Modelled from the spec: an OSC argument. The closed set of single-tag
variants of sections 1 and 4.1. A float32 is represented by its IEEE-754
single-precision bit pattern, the 32 bits that the wire format carries
big-endian. Strings and blobs are byte sequences. -/
inductive Arg where
  | int32 (v : Int)
  | float32 (bits : Nat)
  | str (s : List Byte)
  | blob (b : List Byte)
  | boolean (b : Bool)
  | nil
deriving DecidableEq

/-- Modelled from the spec: an OSC message, an address and its ordered
arguments. -/
structure Msg where
  address : List Byte
  args : List Arg
deriving DecidableEq

/-- OSC string encoding: the content followed by a null terminator and null
padding up to the next 4-byte boundary. The pad count `4 - n % 4` is always
between 1 and 4, so it covers the mandatory terminator. -/
def encOscStr (s : List Byte) : List Byte :=
  s ++ List.replicate (4 - s.length % 4) 0

/-- Big-endian 4-byte encoding of a 32-bit pattern (16777216 is 2 ^ 24,
65536 is 2 ^ 16). -/
def be32 (n : Nat) : List Byte :=
  [n / 16777216 % 256, n / 65536 % 256, n / 256 % 256, n % 256]

/-- The twos-complement 32-bit pattern of a signed value (4294967296 is
2 ^ 32). -/
def int32ToNat (v : Int) : Nat :=
  (v % 4294967296).toNat

/-- The signed value of a 32-bit pattern (2147483648 is 2 ^ 31). -/
def natToInt32 (n : Nat) : Int :=
  if n < 2147483648 then (n : Int) else (n : Int) - 4294967296

/-- The type tag character of an argument: `i`, `f`, `s`, `b`, `T`, `F`, `N`
as their ASCII codes. -/
def tagOf : Arg → Byte
  | .int32 _ => 105
  | .float32 _ => 102
  | .str _ => 115
  | .blob _ => 98
  | .boolean true => 84
  | .boolean false => 70
  | .nil => 78

/-- The payload bytes of one argument: int32 and float32 are 4 bytes
big-endian, a string is null-terminated and padded, a blob is an int32 length
prefix then the bytes padded to a 4-byte boundary, booleans and nil are
tag-only with no payload. A string with an embedded null is rejected. -/
def payloadOf : Arg → Except OscError (List Byte)
  | .int32 v => .ok (be32 (int32ToNat v))
  | .float32 bits => .ok (be32 bits)
  | .str s => if 0 ∈ s then .error .encodeError else .ok (encOscStr s)
  | .blob b => .ok (be32 b.length ++ b ++ List.replicate ((4 - b.length % 4) % 4) 0)
  | .boolean _ => .ok []
  | .nil => .ok []

/-- The concatenated payloads of an argument list, in order. -/
def encodePayloads : List Arg → Except OscError (List Byte)
  | [] => .ok []
  | a :: rest =>
    match payloadOf a with
    | .error e => .error e
    | .ok p =>
      match encodePayloads rest with
      | .error e => .error e
      | .ok ps => .ok (p ++ ps)

/-- Modelled from the spec: `encode`. The padded address string (rejecting an
embedded null), then the type tag string (a comma, ASCII 44, followed by one
tag character per argument, null-terminated and padded), then the payloads in
order. -/
def encode (m : Msg) : Except OscError (List Byte) :=
  if 0 ∈ m.address then .error .encodeError
  else
    match encodePayloads m.args with
    | .error e => .error e
    | .ok ps => .ok (encOscStr m.address ++ encOscStr (44 :: m.args.map tagOf) ++ ps)

/-- Reading an OSC string off the front of a buffer: the content runs to the
first null byte, then padding is skipped up to the 4-byte boundary; padding
byte values are not inspected (malformed padding is tolerated). Fails when no
terminator or not enough padding bytes are present (truncated buffer). -/
def readOscStr (bs : List Byte) : Except OscError (List Byte × List Byte) :=
  let content := bs.takeWhile (fun b => b != 0)
  let total := content.length + (4 - content.length % 4)
  if content.length < bs.length ∧ total ≤ bs.length then
    .ok (content, bs.drop total)
  else .error .decodeError

/-- Reading a big-endian 4-byte word off the front of a buffer; fails on a
buffer shorter than 4 bytes. -/
def read4 (bs : List Byte) : Option (Nat × List Byte) :=
  match bs with
  | b0 :: b1 :: b2 :: b3 :: rest =>
    some (b0 * 16777216 + b1 * 65536 + b2 * 256 + b3, rest)
  | _ => Option.none

/-- Reading one argument given its type tag: 4 big-endian bytes for int32 and
float32, an OSC string for `s`, a length-prefixed padded blob for `b`, and no
bytes at all for `T`, `F`, `N`. An unrecognized tag is a decode error. -/
def readArg (t : Byte) (bs : List Byte) : Except OscError (Arg × List Byte) :=
  if t = 105 then
    match read4 bs with
    | some (n, rest) => .ok (.int32 (natToInt32 n), rest)
    | Option.none => .error .decodeError
  else if t = 102 then
    match read4 bs with
    | some (n, rest) => .ok (.float32 n, rest)
    | Option.none => .error .decodeError
  else if t = 115 then
    match readOscStr bs with
    | .error e => .error e
    | .ok (s, rest) => .ok (.str s, rest)
  else if t = 98 then
    match read4 bs with
    | some (n, rest) =>
      if n + (4 - n % 4) % 4 ≤ rest.length then
        .ok (.blob (rest.take n), rest.drop (n + (4 - n % 4) % 4))
      else .error .decodeError
    | Option.none => .error .decodeError
  else if t = 84 then .ok (.boolean true, bs)
  else if t = 70 then .ok (.boolean false, bs)
  else if t = 78 then .ok (.nil, bs)
  else .error .decodeError

/-- Reading the argument list for a list of type tags, consuming payload bytes
left to right. Bytes remaining after the last tag are tolerated, in line with
the permissive-decoding policy of section 9. -/
def readArgs : List Byte → List Byte → Except OscError (List Arg)
  | [], _ => .ok []
  | t :: ts, bs =>
    match readArg t bs with
    | .error e => .error e
    | .ok (a, rest) =>
      match readArgs ts rest with
      | .error e => .error e
      | .ok as => .ok (a :: as)

/-- The 8-byte bundle marker: the ASCII bytes of `#bundle` then a null. -/
def bundleMarker : List Byte := [35, 98, 117, 110, 100, 108, 101, 0]

/-- Modelled from the spec: `decode` for messages. The first 8 bytes are
compared against the bundle marker (an encoded message never matches it, since
a message address begins with a slash, ASCII 47, not `#`, ASCII 35); bundle
payloads themselves are outside the message round-trip law and map to a
decode error here. Otherwise the address string, the comma-led type tag
string, and the tagged arguments are read in order. -/
def decode (bs : List Byte) : Except OscError Msg :=
  if bs.take 8 = bundleMarker then .error .decodeError
  else
    match readOscStr bs with
    | .error e => .error e
    | .ok (addr, r1) =>
      match readOscStr r1 with
      | .error e => .error e
      | .ok (tagstr, r2) =>
        match tagstr with
        | c :: tags =>
          if c = 44 then
            match readArgs tags r2 with
            | .error e => .error e
            | .ok as => .ok ⟨addr, as⟩
          else .error .decodeError
        | [] => .error .decodeError

/-- Validity of one argument value: int32 in twos-complement 32-bit range,
float32 bit patterns below 2 ^ 32, byte values below 256, no embedded null in
a string, blob length within the int32 length prefix range. -/
def ArgValid : Arg → Prop
  | .int32 v => -2147483648 ≤ v ∧ v < 2147483648
  | .float32 bits => bits < 4294967296
  | .str s => (∀ b ∈ s, b < 256) ∧ 0 ∉ s
  | .blob b => (∀ x ∈ b, x < 256) ∧ b.length < 2147483648
  | .boolean _ => True
  | .nil => True

instance (a : Arg) : Decidable (ArgValid a) := by
  cases a <;> simp only [ArgValid] <;> infer_instance

/-- Validity of a representable message, per the data model of section 3: a
non-empty ASCII address starting with a slash (and hence without embedded
nulls), and valid arguments. -/
def MsgValid (m : Msg) : Prop :=
  m.address.head? = some 47 ∧ (∀ b ∈ m.address, 0 < b ∧ b < 128) ∧
    ∀ a ∈ m.args, ArgValid a

instance (m : Msg) : Decidable (MsgValid m) := by
  unfold MsgValid; infer_instance

/-! ### Helper lemmas: the registry dict -/

theorem hasKey_iff_mem (r : Registry κ) (k : Endpoint) :
    hasKey r k = true ↔ k ∈ r.map Prod.fst := by
  rw [hasKey, List.any_eq_true]
  constructor
  · rintro ⟨e, he, hbeq⟩
    exact List.mem_map.mpr ⟨e, he, beq_iff_eq.mp hbeq⟩
  · intro hm
    obtain ⟨e, he, hek⟩ := List.mem_map.mp hm
    exact ⟨e, he, beq_iff_eq.mpr hek⟩

theorem regLookup_eq_none (r : Registry κ) (k : Endpoint)
    (h : k ∉ r.map Prod.fst) : regLookup r k = Option.none := by
  unfold regLookup
  rw [List.find?_eq_none.mpr]
  · rfl
  · intro e he hbeq
    exact h (List.mem_map.mpr ⟨e, he, (beq_iff_eq.mp hbeq)⟩)

theorem regLookup_dictSet (r : Registry κ) (k : Endpoint) (v : Bindings κ) :
    regLookup (dictSet r k v) k = some v := by
  induction r with
  | nil => simp [dictSet, hasKey, regLookup, List.find?]
  | cons e r ih =>
    by_cases he : e.1 = k
    · have hk : hasKey (e :: r) k = true := by
        simp [hasKey, List.any_cons, he]
      simp [dictSet, hk, regLookup, List.find?, he]
    · have hbeq : (e.1 == k) = false := beq_eq_false_iff_ne.mpr he
      by_cases hr : hasKey r k = true
      · have hk : hasKey (e :: r) k = true := by
          simp only [hasKey, List.any_cons, Bool.or_eq_true]
          exact Or.inr hr
        have ihr := ih
        rw [dictSet, if_pos hr] at ihr
        rw [dictSet, if_pos hk]
        simp only [List.map_cons, if_neg he]
        unfold regLookup at ihr ⊢
        rw [List.find?_cons_of_neg _ (by simp [hbeq])]
        exact ihr
      · have hk : ¬ hasKey (e :: r) k = true := by
          simp only [hasKey, List.any_cons, Bool.or_eq_true, beq_iff_eq]
          rintro (h1 | h2)
          · exact he h1
          · exact hr h2
        have ihr := ih
        rw [dictSet, if_neg hr] at ihr
        rw [dictSet, if_neg hk]
        simp only [List.cons_append]
        unfold regLookup at ihr ⊢
        rw [List.find?_cons_of_neg _ (by simp [hbeq])]
        exact ihr

theorem keys_dictSet_of_hasKey (r : Registry κ) (k : Endpoint) (v : Bindings κ)
    (h : hasKey r k = true) :
    (dictSet r k v).map Prod.fst = r.map Prod.fst := by
  rw [dictSet, if_pos h, List.map_map]
  refine List.map_congr_left (fun e _ => ?_)
  by_cases he : e.1 = k
  · simp [he]
  · simp [he]

theorem keys_dictSet_of_not_hasKey (r : Registry κ) (k : Endpoint) (v : Bindings κ)
    (h : ¬ hasKey r k = true) :
    (dictSet r k v).map Prod.fst = r.map Prod.fst ++ [k] := by
  rw [dictSet, if_neg (by simp [h])]
  simp

theorem nodupKeys_dictSet (r : Registry κ) (k : Endpoint) (v : Bindings κ)
    (h : (r.map Prod.fst).Nodup) : ((dictSet r k v).map Prod.fst).Nodup := by
  by_cases hk : hasKey r k = true
  · rw [keys_dictSet_of_hasKey r k v hk]; exact h
  · rw [keys_dictSet_of_not_hasKey r k v hk]
    rw [List.nodup_append]
    refine ⟨h, List.nodup_singleton k, ?_⟩
    intro x hx hx1
    rw [List.mem_singleton] at hx1
    subst hx1
    exact hk ((hasKey_iff_mem r x).mpr hx)

theorem runCalls_reads (s : Registry κ) (cs : List (RegCall κ))
    (h : ∀ c ∈ cs, c = RegCall.read) : runCalls s cs = s := by
  induction cs with
  | nil => rfl
  | cons c cs ih =>
    have hc := h c (List.mem_cons_self c cs)
    subst hc
    exact ih (fun c hc => h c (List.mem_cons_of_mem _ hc))

/-! ### Helper lemmas: the startup trace -/

theorem createsFor_trace (reg : Registry κ) (k : Endpoint)
    (h : (reg.map Prod.fst).Nodup) :
    createsFor (startServersTrace reg) k = (regLookup reg k).toList := by
  induction reg with
  | nil => simp [createsFor, startServersTrace, regLookup, List.find?]
  | cons e reg ih =>
    simp only [List.map_cons, List.nodup_cons] at h
    obtain ⟨hnot, hnd⟩ := h
    have hrest := ih hnd
    simp only [startServersTrace, List.flatMap_cons] at hrest ⊢
    simp only [createsFor, List.filterMap_append, List.filterMap_cons] at hrest ⊢
    by_cases he : e.1 = k
    · subst he
      have hlk : regLookup reg e.1 = Option.none :=
        regLookup_eq_none reg e.1 hnot
      rw [hlk] at hrest
      simp only [Option.toList_none, List.nil_eq] at hrest
      simp [regLookup, List.find?, createsFor, hrest]
    · simp only [if_neg he]
      rw [regLookup, List.find?_cons_of_neg _ (by simp [beq_eq_false_iff_ne.mpr he])]
      simpa [createsFor] using hrest

theorem threadsFor_eq_creates (reg : Registry κ) (k : Endpoint) :
    threadsFor (startServersTrace reg) k = (createsFor (startServersTrace reg) k).length := by
  induction reg with
  | nil => rfl
  | cons e reg ih =>
    simp only [startServersTrace, List.flatMap_cons, threadsFor, createsFor,
      List.filterMap_append, List.filterMap_cons, List.length_append] at ih ⊢
    by_cases he : e.1 = k <;> simp [he, ih]

/-! ### Helper lemmas: the codec -/

theorem takeWhile_append_zero (s t : List Byte) (h : ∀ x ∈ s, x ≠ 0) :
    (s ++ 0 :: t).takeWhile (fun b => b != 0) = s := by
  induction s with
  | nil => simp
  | cons a s ih =>
    have ha : a ≠ 0 := h a (List.mem_cons_self a s)
    simp only [List.cons_append, List.takeWhile_cons]
    rw [if_pos (by simpa using ha)]
    rw [ih (fun x hx => h x (List.mem_cons_of_mem _ hx))]

theorem encOscStr_length (s : List Byte) :
    (encOscStr s).length = s.length + (4 - s.length % 4) := by
  simp [encOscStr]

theorem readOscStr_enc (s : List Byte) (rest : List Byte) (h : 0 ∉ s) :
    readOscStr (encOscStr s ++ rest) = .ok (s, rest) := by
  have hne : ∀ x ∈ s, x ≠ 0 := fun x hx h0 => h (h0 ▸ hx)
  have hpad : 0 < 4 - s.length % 4 := by omega
  have hrep : List.replicate (4 - s.length % 4) (0 : Byte)
      = 0 :: List.replicate (4 - s.length % 4 - 1) 0 := by
    rw [show 4 - s.length % 4 = (4 - s.length % 4 - 1) + 1 by omega]
    rfl
  have htw : (encOscStr s ++ rest).takeWhile (fun b => b != 0) = s := by
    rw [encOscStr, hrep, List.append_assoc, List.cons_append]
    exact takeWhile_append_zero s _ hne
  have hlen : (encOscStr s ++ rest).length
      = s.length + (4 - s.length % 4) + rest.length := by
    simp [encOscStr_length]
  rw [readOscStr]
  simp only [htw]
  rw [if_pos (by constructor <;> omega)]
  rw [show s.length + (4 - s.length % 4) = (encOscStr s).length from (encOscStr_length s).symm]
  rw [List.drop_left]

theorem reassemble_be32 (n : Nat) (h : n < 4294967296) :
    n / 16777216 % 256 * 16777216 + n / 65536 % 256 * 65536 + n / 256 % 256 * 256 + n % 256
      = n := by
  omega

theorem be32_cons (n : Nat) (rest : List Byte) :
    be32 n ++ rest
      = n / 16777216 % 256 :: n / 65536 % 256 :: n / 256 % 256 :: n % 256 :: rest := rfl

theorem natToInt32_int32ToNat (v : Int) (h1 : -2147483648 ≤ v) (h2 : v < 2147483648) :
    natToInt32 (int32ToNat v) = v := by
  unfold natToInt32 int32ToNat
  split <;> omega

theorem int32ToNat_lt (v : Int) : int32ToNat v < 4294967296 := by
  unfold int32ToNat
  omega

theorem tagOf_ne_zero (a : Arg) : tagOf a ≠ 0 := by
  cases a with
  | boolean b => cases b <;> simp [tagOf]
  | _ => simp [tagOf]

theorem payloadOf_ok (a : Arg) (h : ArgValid a) : ∃ p, payloadOf a = .ok p := by
  cases a with
  | str s => exact ⟨encOscStr s, by rw [payloadOf, if_neg h.2]⟩
  | _ => exact ⟨_, rfl⟩

theorem encodePayloads_ok (args : List Arg) (h : ∀ a ∈ args, ArgValid a) :
    ∃ ps, encodePayloads args = .ok ps := by
  induction args with
  | nil => exact ⟨[], rfl⟩
  | cons a args ih =>
    obtain ⟨ps, hps⟩ := ih (fun x hx => h x (List.mem_cons_of_mem _ hx))
    obtain ⟨p, hp⟩ := payloadOf_ok a (h a (List.mem_cons_self a args))
    exact ⟨p ++ ps, by rw [encodePayloads, hp, hps]⟩

theorem read4_be32 (n : Nat) (h : n < 4294967296) (rest : List Byte) :
    read4 (be32 n ++ rest) = some (n, rest) := by
  rw [be32_cons]
  simp only [read4]
  rw [reassemble_be32 n h]

theorem readArg_enc (a : Arg) (hv : ArgValid a) (p : List Byte)
    (hp : payloadOf a = .ok p) (rest : List Byte) :
    readArg (tagOf a) (p ++ rest) = .ok (a, rest) := by
  cases a with
  | int32 v =>
    obtain ⟨h1, h2⟩ := hv
    simp only [payloadOf] at hp
    injection hp with hp'
    subst hp'
    simp [tagOf, readArg, read4_be32 (int32ToNat v) (int32ToNat_lt v) rest,
      natToInt32_int32ToNat v h1 h2]
  | float32 bits =>
    simp only [payloadOf] at hp
    injection hp with hp'
    subst hp'
    simp [tagOf, readArg, read4_be32 bits hv rest]
  | str s =>
    simp only [payloadOf, if_neg hv.2] at hp
    injection hp with hp'
    subst hp'
    simp [tagOf, readArg, readOscStr_enc s rest hv.2]
  | blob b =>
    obtain ⟨hbytes, hlen⟩ := hv
    simp only [payloadOf] at hp
    injection hp with hp'
    subst hp'
    simp only [tagOf, readArg, List.append_assoc]
    rw [read4_be32 b.length (by omega) (b ++ (List.replicate ((4 - b.length % 4) % 4) 0 ++ rest))]
    have hcond : b.length + (4 - b.length % 4) % 4
        ≤ (b ++ (List.replicate ((4 - b.length % 4) % 4) 0 ++ rest)).length := by
      simp only [List.length_append, List.length_replicate]
      omega
    have htake : (b ++ (List.replicate ((4 - b.length % 4) % 4) 0 ++ rest)).take b.length
        = b :=
      List.take_left b _
    have hdrop : (b ++ (List.replicate ((4 - b.length % 4) % 4) 0 ++ rest)).drop
        (b.length + (4 - b.length % 4) % 4) = rest := by
      rw [← List.append_assoc]
      rw [show b.length + (4 - b.length % 4) % 4
          = (b ++ List.replicate ((4 - b.length % 4) % 4) (0 : Byte)).length by simp]
      rw [List.drop_left]
    simp [hcond, htake, hdrop]
  | boolean b =>
    cases b <;>
    · simp only [payloadOf] at hp
      injection hp with hp'
      subst hp'
      simp [tagOf, readArg]
  | nil =>
    simp only [payloadOf] at hp
    injection hp with hp'
    subst hp'
    simp [tagOf, readArg]

theorem readArgs_enc (args : List Arg) (hv : ∀ a ∈ args, ArgValid a) :
    ∀ ps, encodePayloads args = .ok ps →
      ∀ rest, readArgs (args.map tagOf) (ps ++ rest) = .ok args := by
  induction args with
  | nil =>
    intro ps hps rest
    injection hps with hps'
    subst hps'
    rfl
  | cons a args ih =>
    intro ps hps rest
    rw [encodePayloads] at hps
    cases hpa : payloadOf a with
    | error e => rw [hpa] at hps; cases hps
    | ok p =>
      rw [hpa] at hps
      cases hpes : encodePayloads args with
      | error e => rw [hpes] at hps; cases hps
      | ok ps' =>
        rw [hpes] at hps
        injection hps with hps'
        subst hps'
        simp only [List.map_cons, readArgs, List.append_assoc,
          readArg_enc a (hv a (List.mem_cons_self a args)) p hpa (ps' ++ rest),
          ih (fun x hx => hv x (List.mem_cons_of_mem _ hx)) ps' hpes rest]

theorem take8_head_ne (a : Byte) (l : List Byte) (h : a ≠ 35) :
    (a :: l).take 8 ≠ bundleMarker := by
  intro heq
  rw [show (a :: l).take 8 = a :: l.take 7 from rfl, bundleMarker] at heq
  injection heq with h1 _
  exact h h1

theorem waitFrom_eq_some_iff (interrupt : Nat → Bool) (j fuel : Nat) :
    waitFrom interrupt j fuel = some ()
      ↔ ∃ k, j ≤ k ∧ k < j + fuel ∧ interrupt k = true := by
  induction fuel generalizing j with
  | zero =>
    simp only [waitFrom]
    constructor
    · intro h; cases h
    · rintro ⟨k, h1, h2, _⟩; omega
  | succ n ih =>
    rw [waitFrom]
    by_cases hj : interrupt j = true
    · rw [if_pos hj]
      constructor
      · intro _; exact ⟨j, Nat.le_refl j, by omega, hj⟩
      · intro _; rfl
    · rw [if_neg hj]
      rw [ih (j + 1)]
      constructor
      · rintro ⟨k, h1, h2, h3⟩; exact ⟨k, by omega, by omega, h3⟩
      · rintro ⟨k, h1, h2, h3⟩
        refine ⟨k, ?_, by omega, h3⟩
        rcases Nat.eq_or_lt_of_le h1 with rfl | hlt
        · exact absurd h3 hj
        · omega

/-! ### The claims -/

/-- C1: the claim says that two registrations targeting the same (host, port)
endpoint with two different addresses leave both address-to-callback bindings
in the registry. The code violates this: each per-address registry update
passes the single-entry dict mapping the endpoint to a fresh one-binding inner
dict, and `dict.update` replaces the whole inner dict stored under an existing
key. Evaluating the registration code at the failing inputs: one
`receive(..., addresses=["/a", "/b"])` decoration leaves only the `"/b"`
binding, and two separate decorations of callbacks 0 and 1 on the same
endpoint leave only the second binding. -/
theorem receive_same_endpoint_keeps_last_binding_only :
    receiveUpdate "127.0.0.1" 19994 Option.none (some ["/a", "/b"]) (0 : Nat) []
      = [(("127.0.0.1", 19994), [("/b", 0)])] ∧
    receiveUpdate "127.0.0.1" 19994 (some "/b") Option.none (1 : Nat)
        (receiveUpdate "127.0.0.1" 19994 (some "/a") Option.none 0 [])
      = [(("127.0.0.1", 19994), [("/b", 1)])] :=
  ⟨rfl, rfl⟩

/-- C2: for every registry state (a dict, so with distinct endpoint keys), the
`start_servers` loop creates exactly one server per distinct endpoint key,
whose dispatcher maps exactly the bindings of that endpoint, and starts exactly one
receive thread per created server; an endpoint absent from the registry gets
no server (its creation list is empty, since the lookup is `none`). -/
theorem start_servers_one_server_per_endpoint (reg : Registry κ) (k : Endpoint)
    (hnd : (reg.map Prod.fst).Nodup) :
    createsFor (startServersTrace reg) k = (regLookup reg k).toList ∧
    threadsFor (startServersTrace reg) k
      = (createsFor (startServersTrace reg) k).length :=
  ⟨createsFor_trace reg k hnd, threadsFor_eq_creates reg k⟩

theorem start_servers_one_server_per_endpoint_witness :
    (([(("127.0.0.1", 19994), [("/a", (0 : Nat))]),
       (("10.0.0.1", 9000), [("/b", 1)])].map Prod.fst).Nodup) ∧
    (createsFor (startServersTrace [(("127.0.0.1", 19994), [("/a", (0 : Nat))]),
          (("10.0.0.1", 9000), [("/b", 1)])]) ("127.0.0.1", 19994)
        = (regLookup [(("127.0.0.1", 19994), [("/a", (0 : Nat))]),
            (("10.0.0.1", 9000), [("/b", 1)])] ("127.0.0.1", 19994)).toList ∧
      threadsFor (startServersTrace [(("127.0.0.1", 19994), [("/a", (0 : Nat))]),
          (("10.0.0.1", 9000), [("/b", 1)])]) ("127.0.0.1", 19994)
        = (createsFor (startServersTrace [(("127.0.0.1", 19994), [("/a", (0 : Nat))]),
            (("10.0.0.1", 9000), [("/b", 1)])]) ("127.0.0.1", 19994)).length) :=
  ⟨by decide, start_servers_one_server_per_endpoint _ _ (by decide)⟩

/-- C3: every invocation of a function wrapped with `send(host, port)`
transmits exactly one UDP datagram, addressed to (host, port), and makes
exactly one send attempt whether the transport succeeds or fails: the attempt
list has exactly one element for every transport oracle outcome, so there is
no retry. -/
theorem send_wrapper_exactly_one_datagram {α : Type} (host : String) (port : Nat)
    (f : α → String × PyMessage) (net : Datagram → Except Unit Unit) (a : α) :
    (sendWrapper host port f net a).attempts = [⟨host, port, (f a).1, (f a).2⟩] := by
  cases hnet : net ⟨host, port, (f a).1, (f a).2⟩ <;> simp [sendWrapper, hnet]

/-- C4: the wrapper returned by `send(host, port)` applied to `f` computes the
packet `f(*args, **kwargs)`, sends exactly that (address, message) pair as the
datagram to (host, port), and returns that same pair unchanged to its caller
(the hypothesis restricts to a successful transmission, since on transport
failure the exception propagates instead of a return). -/
theorem send_wrapper_sends_and_returns_packet {α : Type} (host : String) (port : Nat)
    (f : α → String × PyMessage) (net : Datagram → Except Unit Unit) (a : α)
    (h : net ⟨host, port, (f a).1, (f a).2⟩ = .ok ()) :
    (sendWrapper host port f net a).attempts = [⟨host, port, (f a).1, (f a).2⟩] ∧
    (sendWrapper host port f net a).ret = .ok (f a) := by
  simp [sendWrapper, h]

theorem send_wrapper_sends_and_returns_packet_witness :
    (sendWrapper "127.0.0.1" 19994 (fun _ : Unit => ("/some/addr", PyMessage.str "hey"))
        (fun _ => .ok ()) ()).attempts
      = [⟨"127.0.0.1", 19994, "/some/addr", PyMessage.str "hey"⟩] ∧
    (sendWrapper "127.0.0.1" 19994 (fun _ : Unit => ("/some/addr", PyMessage.str "hey"))
        (fun _ => .ok ()) ()).ret
      = .ok ("/some/addr", PyMessage.str "hey") :=
  send_wrapper_sends_and_returns_packet "127.0.0.1" 19994
    (fun _ : Unit => ("/some/addr", PyMessage.str "hey")) (fun _ => .ok ()) () rfl

/-- C5: `start_servers` with `blocking = False` returns to its caller for
every registry state, with all startup events performed; with
`blocking = True` it returns exactly when the blocking wait is interrupted by
a `KeyboardInterrupt` within the observed bound (and then returns normally,
the interrupt having been caught), and has not returned on any bound within
which no interrupt fires. -/
theorem start_servers_blocking_behaviour (reg : Registry κ)
    (interrupt : Nat → Bool) (fuel : Nat) :
    startServersRun false reg interrupt fuel = some (startServersTrace reg) ∧
    (startServersRun true reg interrupt fuel = some (startServersTrace reg)
      ↔ ∃ k, k < fuel ∧ interrupt k = true) := by
  constructor
  · rfl
  · rw [startServersRun, if_pos rfl, waitRun]
    constructor
    · intro h
      cases hw : waitFrom interrupt 0 fuel with
      | none => rw [hw] at h; cases h
      | some u =>
        obtain ⟨k, _, h2, h3⟩ := (waitFrom_eq_some_iff interrupt 0 fuel).mp
          (by cases u; exact hw)
        exact ⟨k, by omega, h3⟩
    · rintro ⟨k, h1, h2⟩
      rw [(waitFrom_eq_some_iff interrupt 0 fuel).mpr ⟨k, by omega, by omega, h2⟩]
      rfl

/-- C6: the round-trip law for the codec modelled from the specification: for
every representable message (valid address and arguments; strings with
embedded nulls are rejected at encode time and are outside validity), encoding
succeeds and decoding the encoding yields the message back. -/
theorem decode_encode_roundtrip (m : Msg) (h : MsgValid m) :
    ∃ bs, encode m = .ok bs ∧ decode bs = .ok m := by
  obtain ⟨hhead, hbytes, hargs⟩ := h
  have haddr0 : 0 ∉ m.address := fun hx => Nat.lt_irrefl 0 (hbytes 0 hx).1
  obtain ⟨ps, hps⟩ := encodePayloads_ok m.args hargs
  refine ⟨encOscStr m.address ++ encOscStr (44 :: m.args.map tagOf) ++ ps, ?_, ?_⟩
  · rw [encode, if_neg haddr0]
    simp [hps]
  · have htag0 : (0 : Byte) ∉ 44 :: m.args.map tagOf := by
      intro hx
      rcases List.mem_cons.mp hx with h44 | hmem
      · exact absurd h44 (by decide)
      · obtain ⟨x, _, hx0⟩ := List.mem_map.mp hmem
        exact tagOf_ne_zero x hx0
    obtain ⟨t, ht⟩ : ∃ t, m.address = 47 :: t := by
      cases haddr : m.address with
      | nil =>
        rw [haddr] at hhead
        cases hhead
      | cons x t =>
        rw [haddr] at hhead
        rw [List.head?_cons] at hhead
        injection hhead with hx
        subst hx
        exact ⟨t, rfl⟩
    have hmarker : (encOscStr m.address ++ encOscStr (44 :: m.args.map tagOf) ++ ps).take 8
        ≠ bundleMarker := by
      rw [ht, encOscStr]
      simp only [List.cons_append]
      exact take8_head_ne 47 _ (by decide)
    have h1 : readOscStr (encOscStr m.address
        ++ (encOscStr (44 :: m.args.map tagOf) ++ ps))
        = .ok (m.address, encOscStr (44 :: m.args.map tagOf) ++ ps) :=
      readOscStr_enc _ _ haddr0
    have h2 : readOscStr (encOscStr (44 :: m.args.map tagOf) ++ ps)
        = .ok (44 :: m.args.map tagOf, ps) :=
      readOscStr_enc _ _ htag0
    have h3 : readArgs (m.args.map tagOf) ps = .ok m.args := by
      have := readArgs_enc m.args hargs ps hps []
      rwa [List.append_nil] at this
    rw [decode, if_neg hmarker]
    simp [h1, h2, h3]

theorem decode_encode_roundtrip_witness :
    MsgValid ⟨[47, 120], [Arg.int32 (-5), Arg.float32 1078530011, Arg.str [104, 105],
      Arg.blob [1, 2, 3], Arg.boolean true, Arg.boolean false, Arg.nil]⟩ ∧
    ∃ bs, encode ⟨[47, 120], [Arg.int32 (-5), Arg.float32 1078530011, Arg.str [104, 105],
        Arg.blob [1, 2, 3], Arg.boolean true, Arg.boolean false, Arg.nil]⟩ = .ok bs ∧
      decode bs = .ok ⟨[47, 120], [Arg.int32 (-5), Arg.float32 1078530011,
        Arg.str [104, 105], Arg.blob [1, 2, 3], Arg.boolean true, Arg.boolean false,
        Arg.nil]⟩ :=
  ⟨by decide, decode_encode_roundtrip _ (by decide)⟩

/-- C7: a registry read (a call passing no update, as `start_servers` makes)
returns the currently stored mapping and leaves it unchanged; the mapping
changes only through a call passing an update (handler registration); and the
stored mapping persists across any sequence of read calls within the
process. -/
theorem registry_read_is_pure (s : Registry κ) (cs : List (RegCall κ))
    (h : ∀ c ∈ cs, c = RegCall.read) :
    serversReturn s RegCall.read = s ∧
    serversStep s RegCall.read = s ∧
    (∀ c, serversStep s c ≠ s → ∃ u, c = RegCall.write u) ∧
    runCalls s cs = s := by
  refine ⟨rfl, rfl, ?_, runCalls_reads s cs h⟩
  intro c hc
  cases c with
  | read => exact absurd rfl hc
  | write u => exact ⟨u, rfl⟩

theorem registry_read_is_pure_witness :
    (∀ c ∈ ([RegCall.read, RegCall.read] : List (RegCall Nat)), c = RegCall.read) ∧
    (serversReturn [(("127.0.0.1", 19994), [("/a", (0 : Nat))])] RegCall.read
        = [(("127.0.0.1", 19994), [("/a", (0 : Nat))])] ∧
      serversStep [(("127.0.0.1", 19994), [("/a", (0 : Nat))])] RegCall.read
        = [(("127.0.0.1", 19994), [("/a", (0 : Nat))])] ∧
      (∀ c, serversStep [(("127.0.0.1", 19994), [("/a", (0 : Nat))])] c
          ≠ [(("127.0.0.1", 19994), [("/a", (0 : Nat))])] → ∃ u, c = RegCall.write u) ∧
      runCalls [(("127.0.0.1", 19994), [("/a", (0 : Nat))])]
          [RegCall.read, RegCall.read]
        = [(("127.0.0.1", 19994), [("/a", (0 : Nat))])]) :=
  ⟨by decide, registry_read_is_pure _ _ (by decide)⟩

/-- C8: the callback stored in the registry by a `receive` decoration is the
original function object `f` itself, not the wrapper the decorator returns
(which is a distinct object), so the dispatcher mapping built by
`start_servers` for that endpoint maps the address to `f` and the server
invokes `f` directly, bypassing the wrapper. -/
theorem receive_stores_original_function (ρ : Type) (host : String) (port : Nat)
    (addr : String) (f : PyFunc ρ) (wid : Nat) (reg : Registry (PyFunc ρ))
    (hnd : (reg.map Prod.fst).Nodup) (hw : wid ≠ f.id) :
    regLookup (receiveDecorate host port (some addr) Option.none f wid reg).1 (host, port)
      = some [(addr, f)] ∧
    (receiveDecorate host port (some addr) Option.none f wid reg).2 ≠ f ∧
    createsFor
        (startServersTrace (receiveDecorate host port (some addr) Option.none f wid reg).1)
        (host, port)
      = [[(addr, f)]] := by
  have hupd : (receiveDecorate host port (some addr) Option.none f wid reg).1
      = dictSet reg (host, port) [(addr, f)] := rfl
  refine ⟨?_, ?_, ?_⟩
  · rw [hupd]
    exact regLookup_dictSet reg (host, port) [(addr, f)]
  · intro heq
    exact hw (congrArg PyFunc.id heq)
  · rw [hupd]
    rw [createsFor_trace _ _ (nodupKeys_dictSet reg (host, port) [(addr, f)] hnd)]
    rw [regLookup_dictSet]
    rfl

theorem receive_stores_original_function_witness :
    ((([] : Registry (PyFunc Unit)).map Prod.fst).Nodup) ∧ (1 : Nat) ≠ 0 ∧
    (regLookup (receiveDecorate "127.0.0.1" 19994 (some "/x") Option.none
          (⟨0, fun _ => Option.none⟩ : PyFunc Unit) 1 []).1 ("127.0.0.1", 19994)
        = some [("/x", (⟨0, fun _ => Option.none⟩ : PyFunc Unit))] ∧
      (receiveDecorate "127.0.0.1" 19994 (some "/x") Option.none
          (⟨0, fun _ => Option.none⟩ : PyFunc Unit) 1 []).2
        ≠ (⟨0, fun _ => Option.none⟩ : PyFunc Unit) ∧
      createsFor (startServersTrace (receiveDecorate "127.0.0.1" 19994 (some "/x")
            Option.none (⟨0, fun _ => Option.none⟩ : PyFunc Unit) 1 []).1)
          ("127.0.0.1", 19994)
        = [[("/x", (⟨0, fun _ => Option.none⟩ : PyFunc Unit))]]) :=
  ⟨List.nodup_nil, by decide,
    receive_stores_original_function Unit "127.0.0.1" 19994 "/x"
      ⟨0, fun _ => Option.none⟩ 1 [] List.nodup_nil (by decide)⟩

/-- C9: calling `receive` with both `address = None` and `addresses = None`
raises `ValueError` before any decorator is produced; if at least one of the
two is provided, `receive` returns the decorator and no error is raised at
registration time (the returned decorator is a total function). -/
theorem receive_requires_an_address (ρ : Type) (host : String) (port : Nat)
    (address : Option String) (addresses : Option (List String))
    (h : address ≠ Option.none ∨ addresses ≠ Option.none) :
    receive ρ host port Option.none Option.none
      = .error "ValueError: Must specify an address." ∧
    ∃ d, receive ρ host port address addresses = .ok d := by
  constructor
  · rw [receive, if_pos ⟨rfl, rfl⟩]
  · refine ⟨fun f wid reg => receiveDecorate host port address addresses f wid reg, ?_⟩
    have hne : ¬(address = Option.none ∧ addresses = Option.none) := by
      rcases h with h | h
      · exact fun hc => h hc.1
      · exact fun hc => h hc.2
    rw [receive, if_neg hne]

theorem receive_requires_an_address_witness :
    ((some "/some/addr" ≠ Option.none ∨ (Option.none : Option (List String)) ≠ Option.none)) ∧
    (receive Unit "127.0.0.1" 19994 Option.none Option.none
        = .error "ValueError: Must specify an address." ∧
      ∃ d, receive Unit "127.0.0.1" 19994 (some "/some/addr") Option.none = .ok d) :=
  ⟨Or.inl (by simp),
    receive_requires_an_address Unit "127.0.0.1" 19994 (some "/some/addr") Option.none
      (Or.inl (by simp))⟩

/-- C10: the wrapper returned by the `receive` decorator, when called with
only an address, invokes `f` with that address and a `None` message; when
called with an address and a message it invokes `f` with both; in all cases
it returns the result of `f` unchanged. -/
theorem receive_wrapper_invokes_f (ρ : Type) (host : String) (port : Nat)
    (address : Option String) (addresses : Option (List String)) (f : PyFunc ρ)
    (wid : Nat) (reg : Registry (PyFunc ρ)) (a : String) (m : PyMessage) :
    (receiveDecorate host port address addresses f wid reg).2.call (CallArgs.one a)
      = f.call (CallArgs.two a PyMessage.none) ∧
    (receiveDecorate host port address addresses f wid reg).2.call (CallArgs.two a m)
      = f.call (CallArgs.two a m) :=
  ⟨rfl, rfl⟩

end Osc
